import Mathlib

/-!
Verification of the SOL carton-size helper (Feishu Bitable plugin).

This file shallowly embeds the repository's packing logic in Lean 4:

* `src/core/arrangement.ts` — the factor-triple enumeration and
  minimum-volume arrangement search (`generateFactorTriples`,
  `computeBestArrangement`);
* `src/utils/numbers.ts` — `convertBufferToInches`, `round`,
  `extractNumber`;
* the packing cascade `runCalculation` (the calculator version of the
  repository that performs quantity integer-validation, PolyBag buffer
  forcing, inner-field clearing and the unconditional net-weight step —
  the behaviour the repository's own cascade documentation describes).

JavaScript numbers are modelled as exact rationals (`ℚ`): every input in
scope is finite, so `Number.isFinite` guards are identically true and are
noted where they occur in the source.  `Math.floor`/`Math.round` are
modelled with `Int.floor` (`Math.round x = ⌊x + 1/2⌋`, JavaScript's
round-half-toward-positive-infinity).  Cell values are a closed inductive
type mirroring the shapes `extractNumber` inspects.  Field writes and log
messages are recorded as explicit lists of events; each event constructor
corresponds to one `onLog`/`setCellValue`/toast site in the source.
-/

set_option maxRecDepth 100000
set_option allowUnsafeReducibility true

attribute [local semireducible] Rat.add Rat.mul Rat.div Rat.inv Rat.sub Rat.neg

namespace SOL

/-- An arrangement count triple `(countWidth, countDepth, countHeight)`,
from `ArrangementCounts` in `src/core/arrangement.ts`. -/
abbrev Counts := ℕ × ℕ × ℕ

/-- Unit box dimensions, from `ArrangementInput` in `src/core/arrangement.ts`. -/
structure ArrangementInput where
  width : ℚ
  depth : ℚ
  height : ℚ
deriving DecidableEq, Repr

/-- An arrangement candidate, from `ArrangementResult` in
`src/core/arrangement.ts`. -/
structure ArrangementResult where
  width : ℚ
  depth : ℚ
  height : ℚ
  cubeFeet : ℚ
  counts : Counts
deriving DecidableEq, Repr

/-- The six index permutations of a triple, in the order the source's
`uniquePermutations` lists them  (`src/core/arrangement.ts`, lines 18-25). -/
def permList (t : Counts) : List Counts :=
  [(t.1, t.2.1, t.2.2), (t.1, t.2.2, t.2.1), (t.2.1, t.1, t.2.2),
   (t.2.1, t.2.2, t.1), (t.2.2, t.1, t.2.1), (t.2.2, t.2.1, t.1)]

/-- First-occurrence de-duplication: fold a list into an accumulator,
appending each element not already present.  This models the
`seen : Set<string>` + `results.push` pattern of the source (the set key
`perm.join("x")` is injective on count triples, so string-key membership
coincides with triple membership). -/
def dedupAppend (acc : List Counts) (l : List Counts) : List Counts :=
  l.foldl (fun a t => if t ∈ a then a else a ++ [t]) acc

/-- Model of `uniquePermutations` from `src/core/arrangement.ts` (lines 17-36):
the six permutations of a triple with duplicates collapsed,
first occurrence kept. -/
def uniquePermutations (t : Counts) : List Counts :=
  dedupAppend [] (permList t)

/-- The divisor-pair enumeration loop of `generateFactorTriples`
(`src/core/arrangement.ts`, lines 44-59) for a positive integer quantity
`n`: for each divisor `a` of `n` (ascending), each divisor `b` of `n / a`
(ascending), push all unique permutations of `(a, b, (n / a) / b)` not
yet seen.  The global `triples` set always holds exactly the keys of
`results`, so membership in the accumulated list models it. -/
def factorTriplesAux (n : ℕ) : List Counts :=
  ((List.range n).map (· + 1)).foldl
    (fun acc a =>
      if n % a = 0 then
        let quotient := n / a
        ((List.range quotient).map (· + 1)).foldl
          (fun acc2 b =>
            if quotient % b = 0 then
              dedupAppend acc2 (uniquePermutations (a, b, quotient / b))
            else acc2)
          acc
      else acc)
    []

/-- Model of `generateFactorTriples` from `src/core/arrangement.ts` (lines 38-61).
`absQty = Math.floor(Math.abs(quantity))`; if `absQty <= 0` the result is
empty, otherwise the divisor enumeration runs on `absQty`. -/
def generateFactorTriples (quantity : ℚ) : List Counts :=
  let absQty : ℤ := Int.floor |quantity|
  if absQty ≤ 0 then [] else factorTriplesAux absQty.toNat

/-- The candidate built from a count triple inside `computeBestArrangement`
(`src/core/arrangement.ts`, lines 73-82): outer dimension = count × unit
dimension + buffer per axis, volume in cubic feet. -/
def mkCandidate (dims : ArrangementInput) (bufferInch : ℚ) (t : Counts) :
    ArrangementResult :=
  let width : ℚ := t.1 * dims.width + bufferInch
  let depth : ℚ := t.2.1 * dims.depth + bufferInch
  let height : ℚ := t.2.2 * dims.height + bufferInch
  ⟨width, depth, height, width * depth * height / 1728, t⟩

/-- The positivity/finiteness filter of `computeBestArrangement`
(line 77): a candidate survives when all three outer dimensions are
positive (rationals are always finite, so `Number.isFinite` is true). -/
def survives (dims : ArrangementInput) (bufferInch : ℚ) (t : Counts) : Bool :=
  decide (0 < (mkCandidate dims bufferInch t).width) &&
  decide (0 < (mkCandidate dims bufferInch t).depth) &&
  decide (0 < (mkCandidate dims bufferInch t).height)

/-- The running-best update of `computeBestArrangement` for a candidate
that already passed the filter (line 81): replace the best exactly when
the new volume is strictly smaller. -/
def minStep (dims : ArrangementInput) (bufferInch : ℚ)
    (best : Option ArrangementResult) (t : Counts) : Option ArrangementResult :=
  let cand := mkCandidate dims bufferInch t
  match best with
  | none => some cand
  | some b => if cand.cubeFeet < b.cubeFeet then some cand else some b

/-- One iteration of the `for (const counts of triples)` loop of
`computeBestArrangement` (lines 72-84): skip filtered candidates,
otherwise apply the running-best update. -/
def bestStep (dims : ArrangementInput) (bufferInch : ℚ)
    (best : Option ArrangementResult) (t : Counts) : Option ArrangementResult :=
  if survives dims bufferInch t then minStep dims bufferInch best t else best

/-- Model of `computeBestArrangement` from `src/core/arrangement.ts` (lines 63-86).
Folding from `none` also covers the early `if (!triples.length) return null`. -/
def computeBestArrangement (quantity : ℚ) (dims : ArrangementInput)
    (bufferInch : ℚ) : Option ArrangementResult :=
  (generateFactorTriples quantity).foldl (bestStep dims bufferInch) none

/-- The enumeration-ordered list of candidates surviving the
positivity/finiteness filter for one call. -/
def survivingTriples (quantity : ℚ) (dims : ArrangementInput)
    (bufferInch : ℚ) : List Counts :=
  (generateFactorTriples quantity).filter (survives dims bufferInch)

/-! ## Unit conversion, rounding and cell-value extraction
(`src/utils/numbers.ts`) -/

/-- Buffer units, the `BufferUnit` type of the calculator. -/
inductive BufferUnit where
  | inch
  | cm
deriving DecidableEq, Repr

/-- Model of `convertBufferToInches` from `src/utils/numbers.ts`: identity for
inches, divide by 2.54 for centimetres.  The `Number.isFinite` guard
(non-finite input ↦ 0) is identically satisfied for rationals. -/
def convertBufferToInches (value : ℚ) (unit : BufferUnit) : ℚ :=
  match unit with
  | BufferUnit.cm => value / (254 / 100)
  | BufferUnit.inch => value

/-- The constant `Number.EPSILON`, the nudge added by `round`. -/
def numberEpsilon : ℚ := 1 / 2 ^ 52

/-- JavaScript `Math.round`: round half toward positive infinity,
`⌊x + 1/2⌋` on exact rationals. -/
def jsMathRound (x : ℚ) : ℤ := Int.floor (x + 1 / 2)

/-- Model of `round` from `src/utils/numbers.ts` (lines 250-253):
`Math.round((value + Number.EPSILON) * 10^digits) / 10^digits`,
modelled on exact rationals (no binary representation error on the
intermediate products). -/
def round (value : ℚ) (fractionDigits : ℕ) : ℚ :=
  let factor : ℚ := 10 ^ fractionDigits
  ((jsMathRound ((value + numberEpsilon) * factor) : ℤ) : ℚ) / factor

/-- Modelled from the spec (refinement comparison only): "standard
round-half-away-from-zero at the given decimal precision". -/
def roundHalfAwayFromZero (value : ℚ) (fractionDigits : ℕ) : ℚ :=
  let factor : ℚ := 10 ^ fractionDigits
  if 0 ≤ value then ((Int.floor (value * factor + 1 / 2) : ℤ) : ℚ) / factor
  else -(((Int.floor (-value * factor + 1 / 2) : ℤ) : ℚ) / factor)

/-- The JavaScript whitespace characters stripped by string→number
coercion (ECMA `StrWhiteSpace`): tab, LF, VT, FF, CR, space, NBSP,
line/paragraph separator, BOM, ideographic space. -/
def isJsWhitespace (c : Char) : Bool :=
  c ∈ [Char.ofNat 9, Char.ofNat 10, Char.ofNat 11, Char.ofNat 12,
       Char.ofNat 13, Char.ofNat 32, Char.ofNat 160, Char.ofNat 0x2028,
       Char.ofNat 0x2029, Char.ofNat 0xFEFF, Char.ofNat 0x3000]

/-- Strip leading and trailing JavaScript whitespace from a character list. -/
def jsTrimList (l : List Char) : List Char :=
  ((l.dropWhile isJsWhitespace).reverse.dropWhile isJsWhitespace).reverse

/-- Digit-string accumulation, `"123" ↦ 123`. -/
def digitsToNat (l : List Char) : ℕ :=
  l.foldl (fun n c => n * 10 + (c.toNat - 48)) 0

/-- Parse a trimmed non-empty decimal numeral (optional sign, integer
digits, optional fraction digits); `none` models `NaN`.  This covers the
decimal fragment of the JavaScript numeric-literal grammar used by the
repository's sheets (exponent/hex forms are out of scope and map to
`none` like any other unparsable string). -/
def parseDecimal (l : List Char) : Option ℚ :=
  let signAndRest : ℚ × List Char :=
    match l with
    | '-' :: r => (-1, r)
    | '+' :: r => (1, r)
    | r => (1, r)
  let sign := signAndRest.1
  let rest := signAndRest.2
  let intPart := rest.takeWhile Char.isDigit
  let rest2 := rest.dropWhile Char.isDigit
  match rest2 with
  | [] => if intPart.isEmpty then none else some (sign * digitsToNat intPart)
  | '.' :: frac =>
    if frac.all Char.isDigit && !(intPart.isEmpty && frac.isEmpty) then
      some (sign * ((digitsToNat intPart : ℚ) +
        (digitsToNat frac : ℚ) / 10 ^ frac.length))
    else none
  | _ => none

/-- JavaScript `Number(string)`: the empty string and whitespace-only
strings coerce to `0`; otherwise parse the trimmed numeral, `none` for
`NaN` (and for the non-finite values `extractNumber` rejects anyway). -/
def jsStringToNumber (s : String) : Option ℚ :=
  let t := jsTrimList s.toList
  if t.isEmpty then some 0 else parseDecimal t

/-- The heterogeneous cell-value shapes `extractNumber` inspects:
null/undefined, a (finite) number, a string, or a wrapper object whose
`.value` is a finite number (`some q`) or anything unusable (`none`). -/
inductive CellValue where
  | null : CellValue
  | num : ℚ → CellValue
  | str : String → CellValue
  | obj : Option ℚ → CellValue
deriving DecidableEq, Repr

/-- Model of `extractNumber` from `src/utils/numbers.ts` (lines 255-267):
null ↦ none; finite number ↦ itself; string ↦ `Number(string)` when
finite; object ↦ its `.value` when that is a finite number. -/
def extractNumber : CellValue → Option ℚ
  | CellValue.null => none
  | CellValue.num q => some q
  | CellValue.str s => jsStringToNumber s
  | CellValue.obj v => v

/-! ## The packing cascade (`runCalculation` in the calculator module)

The embedded version is the repository's cascade that validates quantity
integrality, forces the inner buffer to zero for Poly Bag material,
clears the inner fields when no inner level exists, and always runs the
net-weight step after a successful master arrangement.  Field writes are
recorded as `(key, some v)` (a `setCellValue` with a number) or
`(key, none)` (a clearing `setCellValue(…, null)`); log lines and the
master-qty-zero toast are recorded as `LogEvent`s, one constructor per
`onLog`/toast site (the Chinese message text and the record label are
presentation and not modelled). -/

/-- Inner packaging material, the `InnerMaterial` type
(`"Box" | "Poly Bag"`). -/
inductive InnerMaterial where
  | box
  | polyBag
deriving DecidableEq, Repr

/-- The field keys of `FIELD_KEYS` (`src/config/fields.ts`) used by the
cascade. -/
inductive FieldKey where
  | itemWidth | itemDepth | itemHeight | itemWeight
  | innerQty | masterQty
  | innerWidth | innerDepth | innerHeight | innerWeight
  | masterWidth | masterDepth | masterHeight
  | netWeight
deriving DecidableEq, Repr

/-- Which field keys resolved to a field id (truthiness of
`fieldIds[key]`). -/
def FieldCfg := FieldKey → Bool

/-- One record's raw cell values, keyed by field. -/
def Record := FieldKey → CellValue

/-- Model of `fetchValue` inside `runCalculation`: `none` when the field is not
configured, otherwise `extractNumber` of the raw cell value. -/
def fetchNum (cfg : FieldCfg) (rec : Record) (k : FieldKey) : Option ℚ :=
  if cfg k then extractNumber (rec k) else none

/-- Model of `isPositive` from the calculator: non-null, finite (always, on ℚ)
and strictly positive. -/
def isPositive : Option ℚ → Bool
  | none => false
  | some v => decide (0 < v)

/-- The quantity type-mismatch test: the fetched value is present but
not an integer (`x != null && !Number.isInteger(x)`). -/
def qtyNonInt : Option ℚ → Bool
  | none => false
  | some q => !q.isInt

/-- Log/notification events, one constructor per `onLog`/toast site of
the cascade (in source order of first occurrence). -/
inductive LogEvent where
  | noRecords
  | willProcess (total : ℕ)
  | incompleteDims
  | innerQtyNotInteger
  | masterQtyNotInteger
  | noInnerArrangement
  | autoInnerWeight
  | cannotComputeInnerWeight
  | noInnerCarton
  | innerDimsUpdated
  | masterQtyMissing
  | toastCasePackZero
  | invalidRatio
  | notDivisible
  | missingInnerDims
  | noMasterArrangement
  | netWeightCleared
  | masterDimsUpdated
  | netWeightUpdated
  | netWeightFieldMissing
  | recordFailed (index : ℕ)
deriving DecidableEq, Repr

/-- A conditional `setCellValue`: pushed only when the field key is
configured. -/
def optWrite (b : Bool) (k : FieldKey) (v : Option ℚ) :
    List (FieldKey × Option ℚ) :=
  if b then [(k, v)] else []

/-- Model of `clearInnerValues`: write `null` to each configured inner field
(`INNER_FIELD_KEYS` order). -/
def clearInnerWrites (cfg : FieldCfg) : List (FieldKey × Option ℚ) :=
  optWrite (cfg FieldKey.innerWidth) FieldKey.innerWidth none ++
  optWrite (cfg FieldKey.innerDepth) FieldKey.innerDepth none ++
  optWrite (cfg FieldKey.innerHeight) FieldKey.innerHeight none ++
  optWrite (cfg FieldKey.innerWeight) FieldKey.innerWeight none

/-- The constant `INNER_BOX_PACKAGING_WEIGHT_G`. -/
def innerBoxPackagingWeightG : ℚ := 100

/-- The constant `GRAM_TO_POUND`. -/
def gramToPound : ℚ := 0.00220462

/-- Model of `computeInnerGrossWeightLb` from the calculator: `none` unless the
inner quantity and the unit weight are positive; otherwise
`(innerQty · itemWeight + packaging) · GRAM_TO_POUND` pounds with
`packaging = 0` for Poly Bag and `100` g for Box. -/
def computeInnerGrossWeightLb (innerQty : ℚ) (itemWeight : Option ℚ)
    (material : InnerMaterial) : Option ℚ :=
  if innerQty ≤ 0 then none
  else if !isPositive itemWeight then none
  else
    let packagingWeight : ℚ :=
      match material with
      | InnerMaterial.polyBag => 0
      | InnerMaterial.box => innerBoxPackagingWeightG
    some ((innerQty * itemWeight.getD 0 + packagingWeight) * gramToPound)

/-- Model of the `[...].find(isPositive)` chains: first present positive value of a
fallback-priority list. -/
def firstPos (l : List (Option ℚ)) : Option ℚ :=
  match l.find? isPositive with
  | some v => v
  | none => none

/-- Result of the inner-carton phase: the freshly computed inner
arrangement (if any), the inner-field writes, and the log lines. -/
structure InnerOut where
  arr : Option ArrangementResult
  writes : List (FieldKey × Option ℚ)
  logs : List LogEvent
deriving DecidableEq, Repr

/-- The inner-carton phase of the cascade: when `innerQty > 0` compute
the inner arrangement from the unit dimensions, write its rounded
dimensions to the configured inner fields, and auto-fill the inner gross
weight when it is computable and differs from the stored value by more
than 0.001 lbs (or no positive stored value exists); when
`innerQty ≤ 0` log "no inner carton" and clear the inner fields. -/
def innerPhase (cfg : FieldCfg) (material : InnerMaterial) (innerBufIn : ℚ)
    (itemW itemD itemH : ℚ) (itemWeight : Option ℚ)
    (existingInnerWeightLb : Option ℚ) (innerQty : ℚ) : InnerOut :=
  if 0 < innerQty then
    let res := computeBestArrangement innerQty ⟨itemW, itemD, itemH⟩ innerBufIn
    let dimPart :
        Option ArrangementResult × List (FieldKey × Option ℚ) × List LogEvent :=
      match res with
      | none => (none, [], [LogEvent.noInnerArrangement])
      | some a =>
        (some a,
         optWrite (cfg FieldKey.innerWidth) FieldKey.innerWidth
           (some (round a.width 3)) ++
         optWrite (cfg FieldKey.innerDepth) FieldKey.innerDepth
           (some (round a.depth 3)) ++
         optWrite (cfg FieldKey.innerHeight) FieldKey.innerHeight
           (some (round a.height 3)),
         [])
    let weightPart : List (FieldKey × Option ℚ) × List LogEvent :=
      match computeInnerGrossWeightLb innerQty itemWeight material with
      | some w =>
        if cfg FieldKey.innerWeight then
          if !isPositive existingInnerWeightLb ||
              decide (1 / 1000 < |existingInnerWeightLb.getD 0 - w|) then
            ([(FieldKey.innerWeight, some (round w 3))], [LogEvent.autoInnerWeight])
          else ([], [])
        else ([], [])
      | none =>
        if !isPositive existingInnerWeightLb then
          ([], [LogEvent.cannotComputeInnerWeight])
        else ([], [])
    let updatedLog : List LogEvent :=
      match dimPart.1 with
      | some _ => [LogEvent.innerDimsUpdated]
      | none => []
    ⟨dimPart.1, dimPart.2.1 ++ weightPart.1,
     dimPart.2.2 ++ weightPart.2 ++ updatedLog⟩
  else
    ⟨none, clearInnerWrites cfg, [LogEvent.noInnerCarton]⟩

/-- The tail of the master phase after an arrangement was found: write
the rounded master dimensions, then the net-weight step — positive unit
weight ⟹ write `round(itemWeight/1000 · masterQty, 3)` to the net-weight
field; otherwise clear the net-weight field and log the weight-missing
message — then the master-dimensions summary log and the net-weight log. -/
def masterSuccess (cfg : FieldCfg) (a : ArrangementResult)
    (itemWeight : Option ℚ) (masterQty : ℚ) :
    List (FieldKey × Option ℚ) × List LogEvent :=
  let masterWrites :=
    optWrite (cfg FieldKey.masterWidth) FieldKey.masterWidth
      (some (round a.width 3)) ++
    optWrite (cfg FieldKey.masterDepth) FieldKey.masterDepth
      (some (round a.depth 3)) ++
    optWrite (cfg FieldKey.masterHeight) FieldKey.masterHeight
      (some (round a.height 3))
  if isPositive itemWeight then
    let nw := round (itemWeight.getD 0 / 1000 * masterQty) 3
    (masterWrites ++ optWrite (cfg FieldKey.netWeight) FieldKey.netWeight (some nw),
     [LogEvent.masterDimsUpdated,
      if cfg FieldKey.netWeight then LogEvent.netWeightUpdated
      else LogEvent.netWeightFieldMissing])
  else
    (masterWrites ++ optWrite (cfg FieldKey.netWeight) FieldKey.netWeight none,
     [LogEvent.netWeightCleared, LogEvent.masterDimsUpdated])

/-- The master-carton phase: gate on `masterQty > 0` (toast when exactly
zero), check the master/inner ratio, pick the base cell dimensions
(fresh inner arrangement, then stored inner dimensions, then unit
dimensions — first positive per axis), run the arrangement solver, and
on success continue with `masterSuccess`. -/
def masterNetPhase (cfg : FieldCfg) (masterBufIn : ℚ)
    (itemWidth itemDepth itemHeight itemWeight : Option ℚ)
    (existingInnerWidth existingInnerDepth existingInnerHeight : Option ℚ)
    (innerArr : Option ArrangementResult) (innerQty masterQty : ℚ) :
    List (FieldKey × Option ℚ) × List LogEvent :=
  if masterQty ≤ 0 then
    ([], LogEvent.masterQtyMissing ::
      (if masterQty = 0 then [LogEvent.toastCasePackZero] else []))
  else
    let divisor := if 0 < innerQty then innerQty else 1
    let ratio := masterQty / divisor
    if ratio ≤ 0 then ([], [LogEvent.invalidRatio])
    else if 0 < innerQty then
      if !ratio.isInt then ([], [LogEvent.notDivisible])
      else
        match firstPos [innerArr.map ArrangementResult.width,
                existingInnerWidth, itemWidth],
              firstPos [innerArr.map ArrangementResult.depth,
                existingInnerDepth, itemDepth],
              firstPos [innerArr.map ArrangementResult.height,
                existingInnerHeight, itemHeight] with
        | some bw, some bd, some bh =>
          match computeBestArrangement ratio ⟨bw, bd, bh⟩ masterBufIn with
          | none => ([], [LogEvent.noMasterArrangement])
          | some a => masterSuccess cfg a itemWeight masterQty
        | _, _, _ => ([], [LogEvent.missingInnerDims])
    else
      match computeBestArrangement masterQty
          ⟨itemWidth.getD 0, itemDepth.getD 0, itemHeight.getD 0⟩ masterBufIn with
      | none => ([], [LogEvent.noMasterArrangement])
      | some a => masterSuccess cfg a itemWeight masterQty

/-- Observable outcome of one record's processing: the field writes and
the log lines, in source order. -/
structure RecOut where
  writes : List (FieldKey × Option ℚ)
  logs : List LogEvent
deriving DecidableEq, Repr

/-- One record's pass through the cascade (the `try` body of the loop in
`runCalculation`): fetch, dimension check, quantity integrality checks,
inner phase, master gating/ratio/arrangement, net weight. -/
def processRecord (cfg : FieldCfg) (material : InnerMaterial)
    (innerBufIn masterBufIn : ℚ) (rec : Record) : RecOut :=
  let itemWidth := fetchNum cfg rec FieldKey.itemWidth
  let itemDepth := fetchNum cfg rec FieldKey.itemDepth
  let itemHeight := fetchNum cfg rec FieldKey.itemHeight
  let itemWeight := fetchNum cfg rec FieldKey.itemWeight
  let innerQtyRaw := fetchNum cfg rec FieldKey.innerQty
  let masterQtyRaw := fetchNum cfg rec FieldKey.masterQty
  if !(isPositive itemWidth && isPositive itemDepth && isPositive itemHeight) then
    ⟨[], [LogEvent.incompleteDims]⟩
  else if qtyNonInt innerQtyRaw then ⟨[], [LogEvent.innerQtyNotInteger]⟩
  else if qtyNonInt masterQtyRaw then ⟨[], [LogEvent.masterQtyNotInteger]⟩
  else
    let innerQty := innerQtyRaw.getD 0
    let masterQty := masterQtyRaw.getD 0
    let existingInnerWidth := fetchNum cfg rec FieldKey.innerWidth
    let existingInnerDepth := fetchNum cfg rec FieldKey.innerDepth
    let existingInnerHeight := fetchNum cfg rec FieldKey.innerHeight
    let existingInnerWeightLb := fetchNum cfg rec FieldKey.innerWeight
    let inner := innerPhase cfg material innerBufIn (itemWidth.getD 0)
      (itemDepth.getD 0) (itemHeight.getD 0) itemWeight existingInnerWeightLb
      innerQty
    let master := masterNetPhase cfg masterBufIn itemWidth itemDepth itemHeight
      itemWeight existingInnerWidth existingInnerDepth existingInnerHeight
      inner.arr innerQty masterQty
    ⟨inner.writes ++ master.1, inner.logs ++ master.2⟩

/-- The caller-supplied `CalculationOptions` (the `onLog` sink is the
event list of the result). -/
structure CalculationOptions where
  forceAll : Bool
  innerBuffer : ℚ
  innerBufferUnit : BufferUnit
  masterBuffer : ℚ
  masterBufferUnit : BufferUnit
  innerMaterial : InnerMaterial
deriving DecidableEq, Repr

/-- The effective inner buffer: forced to `0` when the material is
Poly Bag, the configured inner buffer otherwise. -/
def effectiveInnerBuffer (opts : CalculationOptions) : ℚ :=
  match opts.innerMaterial with
  | InnerMaterial.polyBag => 0
  | InnerMaterial.box => opts.innerBuffer

/-- The observable outcome of a whole run: indexed field writes, log
events, and the concluding `processed/total` summary (`none` when the
run returned early because there were no records). -/
structure RunResult where
  writes : List (ℕ × FieldKey × Option ℚ)
  logs : List LogEvent
  summary : Option (ℕ × ℕ)
deriving DecidableEq, Repr

/-- One iteration of the record loop: a record whose accessor throws
(`none`, modelling `table.getRecordById` or a write rejecting) is caught,
logged as failed, and — as in the source `catch` block — does NOT
increment the processed counter; a record that completes adds its writes
and logs and increments the counter. -/
def runStep (cfg : FieldCfg) (material : InnerMaterial)
    (innerBufIn masterBufIn : ℚ)
    (acc : ℕ × List (ℕ × FieldKey × Option ℚ) × List LogEvent)
    (ir : ℕ × Option Record) :
    ℕ × List (ℕ × FieldKey × Option ℚ) × List LogEvent :=
  match ir.2 with
  | none => (acc.1, acc.2.1, acc.2.2 ++ [LogEvent.recordFailed ir.1])
  | some rec =>
    let out := processRecord cfg material innerBufIn masterBufIn rec
    (acc.1 + 1, acc.2.1 ++ out.writes.map (fun w => (ir.1, w)),
     acc.2.2 ++ out.logs)

/-- Model of `runCalculation`: convert the buffers (inner buffer forced to zero
for Poly Bag), return early when the effective record list is empty,
otherwise process each record in order and conclude with the
`processed/total` summary.  `records` is the resolved effective input
set (selection/visible-list resolution is host glue outside the model);
a `none` entry models a record whose processing raises. -/
def runCalculation (cfg : FieldCfg) (opts : CalculationOptions)
    (records : List (Option Record)) : RunResult :=
  let innerBufferInches :=
    convertBufferToInches (effectiveInnerBuffer opts) opts.innerBufferUnit
  let masterBufferInches :=
    convertBufferToInches opts.masterBuffer opts.masterBufferUnit
  if records.isEmpty then ⟨[], [LogEvent.noRecords], none⟩
  else
    let res := records.enum.foldl
      (runStep cfg opts.innerMaterial innerBufferInches masterBufferInches)
      (0, [], [LogEvent.willProcess records.length])
    ⟨res.2.1, res.2.2, some (res.1, records.length)⟩

/-! ## Concrete instances used by witnesses and counterexamples -/

/-- A field configuration in which every field resolved to an id. -/
def cfgAll : FieldCfg := fun _ => true

/-- Spec scenario B: unit dims 1×1×1 in, weight 50 g, no inner quantity,
master quantity 12. -/
def recScenB : Record := fun k =>
  match k with
  | FieldKey.itemWidth => CellValue.num 1
  | FieldKey.itemDepth => CellValue.num 1
  | FieldKey.itemHeight => CellValue.num 1
  | FieldKey.itemWeight => CellValue.num 50
  | FieldKey.masterQty => CellValue.num 12
  | _ => CellValue.null

/-- A record with no dimensions and a non-integer inner quantity. -/
def recBadQtyNoDims : Record := fun k =>
  match k with
  | FieldKey.innerQty => CellValue.num (5/2)
  | _ => CellValue.null

/-- A record with complete dimensions and a non-integer inner quantity. -/
def recBadQty : Record := fun k =>
  match k with
  | FieldKey.itemWidth => CellValue.num 1
  | FieldKey.itemDepth => CellValue.num 1
  | FieldKey.itemHeight => CellValue.num 1
  | FieldKey.innerQty => CellValue.num (7/2)
  | _ => CellValue.null

/-- A record whose inner-quantity cell is an empty string. -/
def recEmptyStrQty : Record := fun k =>
  match k with
  | FieldKey.innerQty => CellValue.str ""
  | _ => CellValue.null

/-- A Poly Bag option set with a non-zero configured inner buffer. -/
def optsPolyBag : CalculationOptions :=
  ⟨false, 3, BufferUnit.cm, 1, BufferUnit.inch, InnerMaterial.polyBag⟩

/-- A Box option set with zero buffers. -/
def optsBoxZero : CalculationOptions :=
  ⟨false, 0, BufferUnit.inch, 0, BufferUnit.inch, InnerMaterial.box⟩

/-! ## Lemmas about the factor-triple enumeration -/

lemma mem_foldl_insert {l acc : List Counts} {x : Counts}
    (hx : x ∈ l.foldl (fun a t => if t ∈ a then a else a ++ [t]) acc) :
    x ∈ acc ∨ x ∈ l := by
  induction l generalizing acc with
  | nil => exact Or.inl hx
  | cons y ys ih =>
    simp only [List.foldl_cons] at hx
    rcases ih hx with h | h
    · by_cases hy : y ∈ acc
      · rw [if_pos hy] at h
        exact Or.inl h
      · rw [if_neg hy] at h
        rcases List.mem_append.mp h with h | h
        · exact Or.inl h
        · simp only [List.mem_singleton] at h
          exact Or.inr (h ▸ List.mem_cons_self _ _)
    · exact Or.inr (List.mem_cons_of_mem _ h)

lemma mem_dedupAppend {acc l : List Counts} {x : Counts}
    (hx : x ∈ dedupAppend acc l) : x ∈ acc ∨ x ∈ l :=
  mem_foldl_insert hx

lemma mem_uniquePermutations {t x : Counts} (hx : x ∈ uniquePermutations t) :
    x ∈ permList t := by
  rcases mem_dedupAppend hx with h | h
  · simp at h
  · exact h

lemma permList_spec {a b c : ℕ} {p : Counts} (hp : p ∈ permList (a, b, c)) :
    p.1 * (p.2.1 * p.2.2) = a * (b * c) ∧
    (0 < a → 0 < b → 0 < c → 0 < p.1 ∧ 0 < p.2.1 ∧ 0 < p.2.2) := by
  simp only [permList, List.mem_cons, List.mem_singleton, List.not_mem_nil,
    or_false] at hp
  rcases hp with h | h | h | h | h | h <;> subst h <;>
    exact ⟨by dsimp only; try ring, fun h1 h2 h3 =>
      ⟨by first | exact h1 | exact h2 | exact h3,
       by first | exact h1 | exact h2 | exact h3,
       by first | exact h1 | exact h2 | exact h3⟩⟩

lemma foldl_preserve {α β : Type} (Q : α → Prop) (f : List α → β → List α) :
    ∀ (l : List β) (acc : List α),
      (∀ acc' x, x ∈ l → (∀ p ∈ acc', Q p) → ∀ p ∈ f acc' x, Q p) →
      (∀ p ∈ acc, Q p) → ∀ p ∈ l.foldl f acc, Q p := by
  intro l
  induction l with
  | nil => intro acc _ hacc p hp; exact hacc p hp
  | cons x xs ih =>
    intro acc hstep hacc p hp
    simp only [List.foldl_cons] at hp
    exact ih _ (fun a y hy => hstep a y (List.mem_cons_of_mem _ hy))
      (hstep acc x (List.mem_cons_self _ _) hacc) p hp

lemma factorTriplesAux_spec {n : ℕ} :
    ∀ p ∈ factorTriplesAux n,
      p.1 * (p.2.1 * p.2.2) = n ∧ 0 < p.1 ∧ 0 < p.2.1 ∧ 0 < p.2.2 := by
  unfold factorTriplesAux
  refine foldl_preserve _ _ _ [] ?_ (by simp)
  intro acc a ha hacc p hp
  simp only at hp
  have ha' : 1 ≤ a ∧ a ≤ n := by
    simp only [List.mem_map, List.mem_range] at ha
    omega
  by_cases hdvd : n % a = 0
  · rw [if_pos hdvd] at hp
    revert p hp
    refine foldl_preserve _ _ _ acc ?_ hacc
    intro acc2 b hb hacc2 p hp
    simp only at hp
    have hb' : 1 ≤ b ∧ b ≤ n / a := by
      simp only [List.mem_map, List.mem_range] at hb
      omega
    by_cases hdvd2 : n / a % b = 0
    · rw [if_pos hdvd2] at hp
      rcases mem_dedupAppend hp with h | h
      · exact hacc2 p h
      · have hperm := permList_spec (mem_uniquePermutations h)
        have hq : 0 < n / a := by
          have : a ∣ n := Nat.dvd_of_mod_eq_zero hdvd
          exact Nat.div_pos ha'.2 (by omega)
        have hc : 0 < n / a / b := Nat.div_pos hb'.2 (by omega)
        have hbc : b * (n / a / b) = n / a :=
          Nat.mul_div_cancel' (Nat.dvd_of_mod_eq_zero hdvd2)
        have han : a * (n / a) = n :=
          Nat.mul_div_cancel' (Nat.dvd_of_mod_eq_zero hdvd)
        refine ⟨?_, (hperm.2 (by omega) (by omega) hc).1,
          (hperm.2 (by omega) (by omega) hc).2.1,
          (hperm.2 (by omega) (by omega) hc).2.2⟩
        rw [hperm.1, hbc, han]
    · rw [if_neg hdvd2] at hp
      exact hacc2 p hp
  · rw [if_neg hdvd] at hp
    exact hacc p hp

lemma generateFactorTriples_natCast {n : ℕ} (hn : 0 < n) :
    generateFactorTriples (n : ℚ) = factorTriplesAux n := by
  unfold generateFactorTriples
  have h1 : |(n : ℚ)| = (n : ℚ) := abs_of_nonneg (by positivity)
  have h2 : (Int.floor ((n : ℚ)) : ℤ) = (n : ℤ) := Int.floor_natCast n
  rw [h1, h2]
  rw [if_neg (by omega)]
  simp

lemma generateFactorTriples_spec {n : ℕ} (hn : 0 < n) :
    ∀ p ∈ generateFactorTriples (n : ℚ),
      p.1 * (p.2.1 * p.2.2) = n ∧ 0 < p.1 ∧ 0 < p.2.1 ∧ 0 < p.2.2 := by
  rw [generateFactorTriples_natCast hn]
  exact factorTriplesAux_spec

/-! ## Lemmas about the minimum-volume selection -/

lemma foldl_bestStep_filter (dims : ArrangementInput) (buf : ℚ) :
    ∀ (l : List Counts) (acc : Option ArrangementResult),
      l.foldl (bestStep dims buf) acc =
        (l.filter (survives dims buf)).foldl (minStep dims buf) acc := by
  intro l
  induction l with
  | nil => intro acc; rfl
  | cons x xs ih =>
    intro acc
    by_cases hx : survives dims buf x
    · simp only [List.foldl_cons, List.filter_cons, hx, if_pos, bestStep, ih]
    · simp only [List.foldl_cons, List.filter_cons, bestStep, hx, ih,
        Bool.false_eq_true, if_false]

lemma minStep_foldl_some (dims : ArrangementInput) (buf : ℚ) :
    ∀ (l : List Counts) (b r : ArrangementResult),
      l.foldl (minStep dims buf) (some b) = some r →
      (r = b ∧ ∀ t ∈ l, b.cubeFeet ≤ (mkCandidate dims buf t).cubeFeet) ∨
      (∃ l₁ t l₂, l = l₁ ++ t :: l₂ ∧ r = mkCandidate dims buf t ∧
        r.cubeFeet < b.cubeFeet ∧
        (∀ u ∈ l₁, r.cubeFeet < (mkCandidate dims buf u).cubeFeet) ∧
        (∀ u ∈ l₂, r.cubeFeet ≤ (mkCandidate dims buf u).cubeFeet)) := by
  intro l
  induction l with
  | nil =>
    intro b r hr
    simp only [List.foldl_nil, Option.some_inj] at hr
    exact Or.inl ⟨hr.symm, by simp⟩
  | cons x xs ih =>
    intro b r hr
    simp only [List.foldl_cons] at hr
    by_cases hx : (mkCandidate dims buf x).cubeFeet < b.cubeFeet
    · rw [show minStep dims buf (some b) x = some (mkCandidate dims buf x) by
        simp [minStep, hx]] at hr
      rcases ih _ _ hr with ⟨hrb, hall⟩ | ⟨l₁, t, l₂, hsplit, hrt, hlt, hpre, hpost⟩
      · refine Or.inr ⟨[], x, xs, rfl, hrb, ?_, by simp, ?_⟩
        · rw [hrb]; exact hx
        · intro u hu; rw [hrb]; exact hall u hu
      · refine Or.inr ⟨x :: l₁, t, l₂, by rw [hsplit, List.cons_append], hrt,
          lt_trans hlt hx, ?_, hpost⟩
        intro u hu
        rcases List.mem_cons.mp hu with h | h
        · exact h ▸ hlt
        · exact hpre u h
    · rw [show minStep dims buf (some b) x = some b by simp [minStep, hx]] at hr
      rcases ih _ _ hr with ⟨hrb, hall⟩ | ⟨l₁, t, l₂, hsplit, hrt, hlt, hpre, hpost⟩
      · refine Or.inl ⟨hrb, ?_⟩
        intro t ht
        rcases List.mem_cons.mp ht with h | h
        · exact h ▸ not_lt.mp hx
        · exact hall t h
      · refine Or.inr ⟨x :: l₁, t, l₂, by rw [hsplit, List.cons_append], hrt,
          hlt, ?_, hpost⟩
        intro u hu
        rcases List.mem_cons.mp hu with h | h
        · exact h ▸ lt_of_lt_of_le hlt (not_lt.mp hx)
        · exact hpre u h

lemma minStep_foldl_none (dims : ArrangementInput) (buf : ℚ)
    (l : List Counts) (r : ArrangementResult)
    (hr : l.foldl (minStep dims buf) none = some r) :
    ∃ l₁ t l₂, l = l₁ ++ t :: l₂ ∧ r = mkCandidate dims buf t ∧
      (∀ u ∈ l₁, r.cubeFeet < (mkCandidate dims buf u).cubeFeet) ∧
      (∀ u ∈ l₂, r.cubeFeet ≤ (mkCandidate dims buf u).cubeFeet) := by
  cases l with
  | nil => simp at hr
  | cons x xs =>
    simp only [List.foldl_cons] at hr
    rw [show minStep dims buf none x = some (mkCandidate dims buf x) from rfl] at hr
    rcases minStep_foldl_some dims buf xs _ _ hr with
      ⟨hrb, hall⟩ | ⟨l₁, t, l₂, hsplit, hrt, hlt, hpre, hpost⟩
    · refine ⟨[], x, xs, rfl, hrb, by simp, ?_⟩
      intro u hu; rw [hrb]; exact hall u hu
    · refine ⟨x :: l₁, t, l₂, by rw [hsplit, List.cons_append], hrt, ?_, hpost⟩
      intro u hu
      rcases List.mem_cons.mp hu with h | h
      · exact h ▸ hlt
      · exact hpre u h

lemma computeBest_characterization {q : ℚ} {dims : ArrangementInput} {buf : ℚ}
    {r : ArrangementResult} (h : computeBestArrangement q dims buf = some r) :
    ∃ l₁ l₂, survivingTriples q dims buf = l₁ ++ r.counts :: l₂ ∧
      r = mkCandidate dims buf r.counts ∧
      (∀ u ∈ l₁, r.cubeFeet < (mkCandidate dims buf u).cubeFeet) ∧
      (∀ u ∈ l₂, r.cubeFeet ≤ (mkCandidate dims buf u).cubeFeet) := by
  unfold computeBestArrangement at h
  rw [foldl_bestStep_filter] at h
  obtain ⟨l₁, t, l₂, hsplit, hrt, hpre, hpost⟩ := minStep_foldl_none dims buf _ r h
  have hc : r.counts = t := by rw [hrt]; rfl
  refine ⟨l₁, l₂, ?_, ?_, hpre, hpost⟩
  · rw [hc]
    exact hsplit
  · rw [hc]
    exact hrt

/-! ## Claims C1-C4: the Arrangement Solver -/

/-- C1: for every positive integer quantity and every unit dimensions and
buffer for which the solver returns a result, the returned counts are
positive integers whose product equals the quantity. -/
theorem claim1_counts_product (n : ℕ) (dims : ArrangementInput) (buf : ℚ)
    (r : ArrangementResult) (hn : 0 < n)
    (h : computeBestArrangement (n : ℚ) dims buf = some r) :
    r.counts.1 * r.counts.2.1 * r.counts.2.2 = n ∧
    0 < r.counts.1 ∧ 0 < r.counts.2.1 ∧ 0 < r.counts.2.2 := by
  obtain ⟨l₁, l₂, hsplit, -, -, -⟩ := computeBest_characterization h
  have hmem : r.counts ∈ survivingTriples (n : ℚ) dims buf := by
    rw [hsplit]
    exact List.mem_append_right _ (List.mem_cons_self _ _)
  have hmem' : r.counts ∈ generateFactorTriples (n : ℚ) :=
    List.mem_of_mem_filter hmem
  obtain ⟨hprod, h1, h2, h3⟩ := generateFactorTriples_spec hn _ hmem'
  exact ⟨by rw [← hprod]; ring, h1, h2, h3⟩

/-- Witness for C1 at quantity 8, unit dims 2×1×1, buffer 0. -/
theorem claim1_witness :
    (mkCandidate ⟨2, 1, 1⟩ 0 (1, 1, 8)).counts.1 *
      (mkCandidate ⟨2, 1, 1⟩ 0 (1, 1, 8)).counts.2.1 *
      (mkCandidate ⟨2, 1, 1⟩ 0 (1, 1, 8)).counts.2.2 = 8 ∧
    0 < (mkCandidate ⟨2, 1, 1⟩ 0 (1, 1, 8)).counts.1 ∧
    0 < (mkCandidate ⟨2, 1, 1⟩ 0 (1, 1, 8)).counts.2.1 ∧
    0 < (mkCandidate ⟨2, 1, 1⟩ 0 (1, 1, 8)).counts.2.2 :=
  claim1_counts_product 8 ⟨2, 1, 1⟩ 0 _ (by decide) (by decide)

/-- C2: whenever the solver returns a result, its volume is ≤ the volume
of every candidate surviving the positivity/finiteness filter, and it is
the first candidate (in divisor/permutation enumeration order) achieving
that volume: every earlier survivor has strictly larger volume. -/
theorem claim2_minimal_first_tie (q : ℚ) (dims : ArrangementInput) (buf : ℚ)
    (r : ArrangementResult) (h : computeBestArrangement q dims buf = some r) :
    (∀ t ∈ survivingTriples q dims buf,
        r.cubeFeet ≤ (mkCandidate dims buf t).cubeFeet) ∧
    ∃ l₁ l₂, survivingTriples q dims buf = l₁ ++ r.counts :: l₂ ∧
      r = mkCandidate dims buf r.counts ∧
      ∀ u ∈ l₁, r.cubeFeet < (mkCandidate dims buf u).cubeFeet := by
  obtain ⟨l₁, l₂, hsplit, hmk, hpre, hpost⟩ := computeBest_characterization h
  refine ⟨?_, l₁, l₂, hsplit, hmk, hpre⟩
  intro t ht
  rw [hsplit] at ht
  rcases List.mem_append.mp ht with h' | h'
  · exact le_of_lt (hpre t h')
  · rcases List.mem_cons.mp h' with h' | h'
    · exact le_of_eq (by rw [h', ← hmk])
    · exact hpost t h'

/-- Witness for C2 at quantity 6, unit dims 1×1×1, buffer 0 (the solver
returns the first enumerated triple (1,1,6); all nine candidates tie). -/
theorem claim2_witness :
    (∀ t ∈ survivingTriples 6 ⟨1, 1, 1⟩ 0,
        (mkCandidate ⟨1, 1, 1⟩ 0 (1, 1, 6)).cubeFeet ≤
          (mkCandidate ⟨1, 1, 1⟩ 0 t).cubeFeet) ∧
    ∃ l₁ l₂, survivingTriples 6 ⟨1, 1, 1⟩ 0 =
        l₁ ++ (mkCandidate ⟨1, 1, 1⟩ 0 (1, 1, 6)).counts :: l₂ ∧
      mkCandidate ⟨1, 1, 1⟩ 0 (1, 1, 6) =
        mkCandidate ⟨1, 1, 1⟩ 0 ((mkCandidate ⟨1, 1, 1⟩ 0 (1, 1, 6)).counts) ∧
      ∀ u ∈ l₁, (mkCandidate ⟨1, 1, 1⟩ 0 (1, 1, 6)).cubeFeet <
          (mkCandidate ⟨1, 1, 1⟩ 0 u).cubeFeet :=
  claim2_minimal_first_tie 6 ⟨1, 1, 1⟩ 0 _ (by decide)

/-- C3 counterexample: the claim says the solver returns none for every
quantity ≤ 0, but at quantity -5 (dims 1×1×1, buffer 0) it returns a
result — the implementation floors the absolute value, so -5 behaves
like 5. -/
theorem claim3_counterexample :
    (-5 : ℚ) ≤ 0 ∧ computeBestArrangement (-5) ⟨1, 1, 1⟩ 0 ≠ none := by
  exact ⟨by norm_num, by decide⟩

/-- C3 amended: the solver returns none when the floored absolute
quantity is zero, i.e. exactly for |q| < 1 (which covers 0 and all
quantities strictly between -1 and 1); for every other quantity it
behaves as on |q|, so negative quantities ≤ -1 are not rejected. -/
theorem claim3_amended (q : ℚ) (dims : ArrangementInput) (buf : ℚ) :
    (|q| < 1 → computeBestArrangement q dims buf = none) ∧
    computeBestArrangement q dims buf = computeBestArrangement |q| dims buf := by
  constructor
  · intro hq
    have h0 : (Int.floor |q| : ℤ) = 0 := by
      rw [Int.floor_eq_zero_iff]
      exact Set.mem_Ico.mpr ⟨abs_nonneg q, hq⟩
    simp only [computeBestArrangement, generateFactorTriples, h0]
    simp
  · simp only [computeBestArrangement, generateFactorTriples, abs_abs]

/-- Witness for C3 amended at q = -1/2 (returns none) and q = -5
(behaves as its absolute value). -/
theorem claim3_witness :
    computeBestArrangement (-1/2) ⟨1, 1, 1⟩ 0 = none ∧
    computeBestArrangement (-5) ⟨1, 1, 1⟩ 0 =
      computeBestArrangement |(-5 : ℚ)| ⟨1, 1, 1⟩ 0 :=
  ⟨(claim3_amended (-1/2) ⟨1, 1, 1⟩ 0).1 (by rw [abs_lt]; constructor <;> norm_num),
   (claim3_amended (-5) ⟨1, 1, 1⟩ 0).2⟩

/-- C4 counterexample: at quantity 8, dims 2×1×1, buffer 0 the solver
returns the first enumerated triple (1,1,8) with outer dims (2,1,8),
not the claimed counts (2,2,2) with outer dims (4,2,2). -/
theorem claim4_counterexample :
    computeBestArrangement 8 ⟨2, 1, 1⟩ 0 =
      some (mkCandidate ⟨2, 1, 1⟩ 0 (1, 1, 8)) ∧
    (mkCandidate ⟨2, 1, 1⟩ 0 (1, 1, 8)).counts ≠ (2, 2, 2) ∧
    (mkCandidate ⟨2, 1, 1⟩ 0 (1, 1, 8)).width ≠ 4 := by decide

/-- C4 amended: at quantity 8, dims 2×1×1, buffer 0, every enumerated
candidate has the same volume 16/1728 ft³ (the buffer-free volume is
count-independent), and the solver returns the first enumerated triple
(1,1,8): outer dims (2,1,8), volume 16/1728 ft³.  The claimed volume was
correct; the claimed counts/dims were not. -/
theorem claim4_amended :
    computeBestArrangement 8 ⟨2, 1, 1⟩ 0 =
      some ⟨2, 1, 8, 16/1728, (1, 1, 8)⟩ ∧
    ∀ t ∈ generateFactorTriples 8,
      (mkCandidate ⟨2, 1, 1⟩ 0 t).cubeFeet = 16/1728 := by decide



/-! ## Claims C5, C8: per-record cascade properties -/

lemma mem_optWrite {b : Bool} {k : FieldKey} {v : Option ℚ}
    {w : FieldKey × Option ℚ} (hw : w ∈ optWrite b k v) : w = (k, v) := by
  unfold optWrite at hw
  split at hw
  · simpa using hw
  · simp at hw

lemma innerPhase_no_netWeight (cfg : FieldCfg) (material : InnerMaterial)
    (innerBufIn : ℚ) (itemW itemD itemH : ℚ) (itemWeight : Option ℚ)
    (ex : Option ℚ) (innerQty : ℚ) :
    ∀ w ∈ (innerPhase cfg material innerBufIn itemW itemD itemH itemWeight
        ex innerQty).writes, w.1 ≠ FieldKey.netWeight := by
  intro w hw
  simp only [innerPhase, clearInnerWrites, optWrite] at hw
  repeat' split at hw
  all_goals simp_all [List.mem_append]
  all_goals (rcases hw with h | h | h | h <;> simp_all)

lemma masterSuccess_netWeight {cfg : FieldCfg} {a : ArrangementResult}
    {iwt : Option ℚ} {mq : ℚ} {v : Option ℚ}
    (h : (FieldKey.netWeight, v) ∈ (masterSuccess cfg a iwt mq).1) :
    (isPositive iwt = true → v = some (round (iwt.getD 0 / 1000 * mq) 3)) ∧
    (isPositive iwt = false →
      v = none ∧
      LogEvent.netWeightCleared ∈ (masterSuccess cfg a iwt mq).2) := by
  by_cases hp : isPositive iwt = true
  · simp only [masterSuccess, hp, if_true] at h ⊢
    refine ⟨fun _ => ?_, fun hf => absurd hf (by simp)⟩
    rcases List.mem_append.mp h with h' | h'
    · rcases List.mem_append.mp h' with h'' | h''
      · rcases List.mem_append.mp h'' with h3 | h3
        · have := mem_optWrite h3; simp at this
        · have := mem_optWrite h3; simp at this
      · have := mem_optWrite h''; simp at this
    · have := mem_optWrite h'
      simpa using this
  · rw [Bool.not_eq_true] at hp
    simp only [masterSuccess, hp, Bool.false_eq_true, if_false] at h ⊢
    refine ⟨fun ht => absurd ht (by simp), fun _ => ⟨?_, by simp⟩⟩
    rcases List.mem_append.mp h with h' | h'
    · rcases List.mem_append.mp h' with h'' | h''
      · rcases List.mem_append.mp h'' with h3 | h3
        · have := mem_optWrite h3; simp at this
        · have := mem_optWrite h3; simp at this
      · have := mem_optWrite h''; simp at this
    · have := mem_optWrite h'
      simpa using this

lemma masterNetPhase_cases (cfg : FieldCfg) (mb : ℚ)
    (iW iD iH iwt eW eD eH : Option ℚ) (arr : Option ArrangementResult)
    (iq mq : ℚ) :
    (masterNetPhase cfg mb iW iD iH iwt eW eD eH arr iq mq).1 = [] ∨
    ∃ a, masterNetPhase cfg mb iW iD iH iwt eW eD eH arr iq mq =
      masterSuccess cfg a iwt mq := by
  simp only [masterNetPhase]
  repeat' split
  all_goals first
    | (left; rfl)
    | (right; exact ⟨_, rfl⟩)

lemma masterNetPhase_reach {cfg : FieldCfg} {mb : ℚ}
    {iW iD iH iwt eW eD eH : Option ℚ} {arr : Option ArrangementResult}
    {iq mq : ℚ} {v : Option ℚ}
    (h : (FieldKey.netWeight, v) ∈
      (masterNetPhase cfg mb iW iD iH iwt eW eD eH arr iq mq).1) :
    ∃ a, masterNetPhase cfg mb iW iD iH iwt eW eD eH arr iq mq =
      masterSuccess cfg a iwt mq := by
  rcases masterNetPhase_cases cfg mb iW iD iH iwt eW eD eH arr iq mq with h0 | hx
  · rw [h0] at h
    simp at h
  · exact hx

/-- C5: for every record that reaches the net-weight step (equivalently,
whose processing writes the net-weight field): with a positive unit
weight the written value is `(weight/1000)·masterQty` rounded to three
decimals; with the unit weight absent or non-positive the field is
cleared (written `null`) and the weight-missing message is logged.  This
holds whether or not an inner level exists (no hypothesis on the inner
quantity). -/
theorem claim5_net_weight (cfg : FieldCfg) (material : InnerMaterial)
    (ib mb : ℚ) (rec : Record) (v : Option ℚ)
    (h : (FieldKey.netWeight, v) ∈ (processRecord cfg material ib mb rec).writes) :
    (∀ w : ℚ, fetchNum cfg rec FieldKey.itemWeight = some w → 0 < w →
      v = some (round (w / 1000 *
        ((fetchNum cfg rec FieldKey.masterQty).getD 0)) 3)) ∧
    (∀ w : ℚ, fetchNum cfg rec FieldKey.itemWeight = some w → w ≤ 0 →
      v = none ∧
      LogEvent.netWeightCleared ∈ (processRecord cfg material ib mb rec).logs) ∧
    (fetchNum cfg rec FieldKey.itemWeight = none →
      v = none ∧
      LogEvent.netWeightCleared ∈ (processRecord cfg material ib mb rec).logs) := by
  by_cases hA : (isPositive (fetchNum cfg rec FieldKey.itemWidth) &&
      isPositive (fetchNum cfg rec FieldKey.itemDepth) &&
      isPositive (fetchNum cfg rec FieldKey.itemHeight)) = true
  case neg =>
    rw [Bool.not_eq_true] at hA
    simp only [processRecord, hA, Bool.not_false, if_true] at h
    simp at h
  case pos =>
  by_cases hB : qtyNonInt (fetchNum cfg rec FieldKey.innerQty) = true
  case pos =>
    simp only [processRecord, hA, Bool.not_true, Bool.false_eq_true, if_false,
      hB, if_true] at h
    simp at h
  case neg =>
  rw [Bool.not_eq_true] at hB
  by_cases hC : qtyNonInt (fetchNum cfg rec FieldKey.masterQty) = true
  case pos =>
    simp only [processRecord, hA, Bool.not_true, Bool.false_eq_true, if_false,
      hB, hC, if_true] at h
    simp at h
  case neg =>
  rw [Bool.not_eq_true] at hC
  simp only [processRecord, hA, Bool.not_true, Bool.false_eq_true, if_false,
    hB, hC] at h ⊢
  rcases List.mem_append.mp h with h' | h'
  · exact absurd rfl (innerPhase_no_netWeight _ _ _ _ _ _ _ _ _ _ h')
  · obtain ⟨a, heq⟩ := masterNetPhase_reach h'
    rw [heq] at h'
    obtain ⟨hpos, hneg⟩ := masterSuccess_netWeight h'
    refine ⟨?_, ?_, ?_⟩
    · intro w hw hwpos
      have : isPositive (fetchNum cfg rec FieldKey.itemWeight) = true := by
        rw [hw]; simpa [isPositive] using hwpos
      have hv := hpos this
      rw [hv, hw]
      simp
    · intro w hw hwnonpos
      have hf : isPositive (fetchNum cfg rec FieldKey.itemWeight) = false := by
        rw [hw]; simpa [isPositive] using not_lt.mpr hwnonpos
      obtain ⟨hv, hlog⟩ := hneg hf
      refine ⟨hv, ?_⟩
      rw [heq]
      exact List.mem_append_right _ hlog
    · intro hw
      have hf : isPositive (fetchNum cfg rec FieldKey.itemWeight) = false := by
        rw [hw]; rfl
      obtain ⟨hv, hlog⟩ := hneg hf
      refine ⟨hv, ?_⟩
      rw [heq]
      exact List.mem_append_right _ hlog

/-- Witness for C5: scenario-B record (no inner level, weight 50 g,
master qty 12): the written net weight is 0.6 kg. -/
theorem claim5_witness :
    (some (3/5 : ℚ) : Option ℚ) =
      some (round ((50 : ℚ) / 1000 *
        ((fetchNum cfgAll recScenB FieldKey.masterQty).getD 0)) 3) :=
  (claim5_net_weight cfgAll InnerMaterial.box 0 0 recScenB (some (3/5))
    (by decide)).1 50 (by decide) (by norm_num)

/-- C8 counterexample: a record whose inner quantity is present and
non-integer (5/2) but whose dimensions are missing is skipped with the
incomplete-dimensions message, and no type-mismatch message is logged —
the claim promised a type-mismatch log for every such record. -/
theorem claim8_counterexample :
    qtyNonInt (fetchNum cfgAll recBadQtyNoDims FieldKey.innerQty) = true ∧
    processRecord cfgAll InnerMaterial.box 0 0 recBadQtyNoDims =
      ⟨[], [LogEvent.incompleteDims]⟩ ∧
    LogEvent.innerQtyNotInteger ∉
      (processRecord cfgAll InnerMaterial.box 0 0 recBadQtyNoDims).logs ∧
    LogEvent.masterQtyNotInteger ∉
      (processRecord cfgAll InnerMaterial.box 0 0 recBadQtyNoDims).logs := by
  decide

/-- C8 amended: for every record that passes the dimension check
(positive item width/depth/height), a present non-integer inner quantity
is logged as a type mismatch and the record is skipped with no writes;
with an integral (or absent) inner quantity, a present non-integer
master quantity likewise.  (A record failing the dimension check is
skipped with the incomplete-dimensions message instead, even when a
quantity is also non-integer.) -/
theorem claim8_amended (cfg : FieldCfg) (material : InnerMaterial)
    (ib mb : ℚ) (rec : Record)
    (hW : isPositive (fetchNum cfg rec FieldKey.itemWidth) = true)
    (hD : isPositive (fetchNum cfg rec FieldKey.itemDepth) = true)
    (hH : isPositive (fetchNum cfg rec FieldKey.itemHeight) = true) :
    (qtyNonInt (fetchNum cfg rec FieldKey.innerQty) = true →
      processRecord cfg material ib mb rec = ⟨[], [LogEvent.innerQtyNotInteger]⟩) ∧
    (qtyNonInt (fetchNum cfg rec FieldKey.innerQty) = false →
      qtyNonInt (fetchNum cfg rec FieldKey.masterQty) = true →
      processRecord cfg material ib mb rec = ⟨[], [LogEvent.masterQtyNotInteger]⟩) := by
  constructor
  · intro hq
    simp only [processRecord, hW, hD, hH, hq, Bool.and_self, Bool.not_true,
      Bool.false_eq_true, if_false, if_true]
  · intro hq1 hq2
    simp only [processRecord, hW, hD, hH, hq1, hq2, Bool.and_self,
      Bool.not_true, Bool.false_eq_true, if_false, if_true]

/-- Witness for C8 amended: a record with unit dims 1×1×1 and inner
quantity 7/2 is skipped with the type-mismatch log and no writes. -/
theorem claim8_witness :
    processRecord cfgAll InnerMaterial.box 0 0 recBadQty =
      ⟨[], [LogEvent.innerQtyNotInteger]⟩ :=
  (claim8_amended cfgAll InnerMaterial.box 0 0 recBadQty
    (by decide) (by decide) (by decide)).1 (by decide)



/-! ## Claim C6: Poly Bag forces a zero inner buffer and zero packaging
mass -/

/-- C6: with Poly Bag inner material the inner buffer passed to the
inner-carton arrangement computation is 0 regardless of the configured
inner buffer (so whole runs are unchanged by the configured value), and
the packaging mass added to the inner gross weight is 0 g (vs. 100 g for
Box). -/
theorem claim6_polybag (opts : CalculationOptions)
    (h : opts.innerMaterial = InnerMaterial.polyBag) :
    convertBufferToInches (effectiveInnerBuffer opts) opts.innerBufferUnit = 0 ∧
    (∀ (cfg : FieldCfg) (records : List (Option Record)) (b : ℚ),
      runCalculation cfg opts records =
        runCalculation cfg { opts with innerBuffer := b } records) ∧
    (∀ qty w : ℚ, 0 < qty → 0 < w →
      computeInnerGrossWeightLb qty (some w) InnerMaterial.polyBag =
        some ((qty * w + 0) * gramToPound) ∧
      computeInnerGrossWeightLb qty (some w) InnerMaterial.box =
        some ((qty * w + 100) * gramToPound)) := by
  have heff : effectiveInnerBuffer opts = 0 := by
    unfold effectiveInnerBuffer
    rw [h]
  have hconv : ∀ u, convertBufferToInches 0 u = 0 := by
    intro u
    cases u <;> simp [convertBufferToInches]
  refine ⟨by rw [heff]; exact hconv _, ?_, ?_⟩
  · intro cfg records b
    have h2 : effectiveInnerBuffer { opts with innerBuffer := b } = 0 := by
      unfold effectiveInnerBuffer
      rw [show ({ opts with innerBuffer := b } : CalculationOptions).innerMaterial =
        opts.innerMaterial from rfl, h]
    unfold runCalculation
    rw [heff, h2]
  · intro qty w hq hw
    constructor <;>
      · unfold computeInnerGrossWeightLb
        rw [if_neg (not_le.mpr hq)]
        simp [isPositive, hw, innerBoxPackagingWeightG]

/-- Witness for C6 at a Poly Bag option set with configured inner buffer
3 cm, and inner quantity 4 with unit weight 50 g. -/
theorem claim6_witness :
    convertBufferToInches (effectiveInnerBuffer optsPolyBag)
      optsPolyBag.innerBufferUnit = 0 ∧
    computeInnerGrossWeightLb 4 (some 50) InnerMaterial.polyBag =
      some ((4 * 50 + 0) * gramToPound) ∧
    computeInnerGrossWeightLb 4 (some 50) InnerMaterial.box =
      some ((4 * 50 + 100) * gramToPound) :=
  ⟨(claim6_polybag optsPolyBag rfl).1,
   ((claim6_polybag optsPolyBag rfl).2.2 4 50 (by norm_num) (by norm_num)).1,
   ((claim6_polybag optsPolyBag rfl).2.2 4 50 (by norm_num) (by norm_num)).2⟩

/-! ## Claim C7: the rounding helper -/

/-- C7 counterexample: at -2.005 with 2 digits the implementation
returns -2.0 (Math.round rounds halves toward +∞ and the epsilon nudge
is added, not subtracted, for negative values), while
round-half-away-from-zero gives -2.01 — so the claimed behaviour fails
for negative inputs. -/
theorem claim7_counterexample :
    round (-2005/1000) 2 = -2 ∧
    roundHalfAwayFromZero (-2005/1000) 2 = -201/100 ∧
    (-2 : ℚ) ≠ -201/100 := by decide

/-- C7 amended: `round` is scale-multiply-`Math.round`-divide with the
`Number.EPSILON` nudge, where `Math.round` rounds halves toward positive
infinity: for every integer `m` and precision `d ≤ 15`, the exact
decimal half `(2m+1)/(2·10^d)` rounds to `(m+1)/10^d` — away from zero
for non-negative values but toward zero for negative values; the claimed
example `round(2.005, 2) = 2.01` does hold. -/
theorem claim7_amended :
    (∀ (m : ℤ) (d : ℕ), d ≤ 15 →
      round ((2 * (m : ℚ) + 1) / (2 * 10 ^ d)) d = ((m + 1 : ℤ) : ℚ) / 10 ^ d) ∧
    round (2005/1000) 2 = 201/100 := by
  refine ⟨?_, by decide⟩
  intro m d hd
  simp only [round, jsMathRound, numberEpsilon]
  have h10 : (0 : ℚ) < 10 ^ d := by positivity
  have h52 : (0 : ℚ) < 2 ^ 52 := by positivity
  have harg : ((2 * (m : ℚ) + 1) / (2 * 10 ^ d) + 1 / 2 ^ 52) * 10 ^ d + 1 / 2
      = ((m + 1 : ℤ) : ℚ) + 10 ^ d / 2 ^ 52 := by
    push_cast
    field_simp
    ring
  rw [harg]
  have hlt : (10 : ℚ) ^ d / 2 ^ 52 < 1 := by
    rw [div_lt_one h52]
    calc (10 : ℚ) ^ d ≤ 10 ^ 15 := by
          apply pow_le_pow_right₀ (by norm_num) hd
      _ < 2 ^ 52 := by norm_num
  have hfloor : Int.floor ((10 : ℚ) ^ d / 2 ^ 52) = 0 := by
    rw [Int.floor_eq_zero_iff]
    exact Set.mem_Ico.mpr ⟨by positivity, hlt⟩
  rw [Int.floor_int_add, hfloor, add_zero]

/-- Witness for C7 amended at m = -3, d = 0: the exact half -5/2 rounds
to -2 (toward +∞, i.e. toward zero). -/
theorem claim7_witness :
    round ((2 * ((-3 : ℤ) : ℚ) + 1) / (2 * 10 ^ 0)) 0 =
      (((-3 : ℤ) + 1 : ℤ) : ℚ) / 10 ^ 0 :=
  claim7_amended.1 (-3) 0 (by norm_num)

/-! ## Claim C9: the processed counter and summary -/

lemma runStep_foldl_count (cfg : FieldCfg) (material : InnerMaterial)
    (ib mb : ℚ) :
    ∀ (l : List (ℕ × Option Record)) (acc : ℕ ×
        List (ℕ × FieldKey × Option ℚ) × List LogEvent),
      (l.foldl (runStep cfg material ib mb) acc).1 =
        acc.1 + l.countP (fun ir => ir.2.isSome) := by
  intro l
  induction l with
  | nil => intro acc; simp
  | cons x xs ih =>
    intro acc
    simp only [List.foldl_cons, List.countP_cons]
    rcases x with ⟨i, _ | rec⟩
    · rw [ih]
      simp [runStep]
    · rw [ih]
      simp only [runStep, Option.isSome_some, if_pos]
      omega

lemma enumFrom_countP :
    ∀ (l : List (Option Record)) (n : ℕ),
      (List.enumFrom n l).countP (fun ir => ir.2.isSome) =
        l.countP Option.isSome := by
  intro l
  induction l with
  | nil => intro n; rfl
  | cons x xs ih =>
    intro n
    simp only [List.enumFrom, List.countP_cons, ih]

/-- C9 amended: the run's concluding summary reports
`processed = number of records whose processing completed without an
exception` out of `total = number of requested records`; records whose
processing raises are logged as failed but are NOT counted as processed,
so the summary equals `total` only when no record throws. -/
theorem claim9_amended (cfg : FieldCfg) (opts : CalculationOptions)
    (records : List (Option Record)) (h : records ≠ []) :
    (runCalculation cfg opts records).summary =
      some (records.countP Option.isSome, records.length) := by
  unfold runCalculation
  rw [if_neg (by cases records with
    | nil => exact absurd rfl h
    | cons x xs => simp)]
  simp only
  rw [runStep_foldl_count]
  rw [show List.enum records = List.enumFrom 0 records from rfl, enumFrom_countP]
  simp

/-- Witness for C9 amended: one completing record plus one throwing
record yields summary 1/2. -/
theorem claim9_witness :
    (runCalculation cfgAll optsBoxZero [some recScenB, none]).summary =
      some (1, 2) :=
  (claim9_amended cfgAll optsBoxZero [some recScenB, none] (by simp)).trans
    (by decide)

/-- C9 counterexample: a run over a single record whose accessor throws
reports summary 0/1 — the record is logged as failed but not counted as
processed, contradicting the claim that every record (including ones
whose processing raises) is counted and that the summary always equals
the total. -/
theorem claim9_counterexample :
    (runCalculation cfgAll optsBoxZero [none]).summary = some (0, 1) ∧
    LogEvent.recordFailed 0 ∈ (runCalculation cfgAll optsBoxZero [none]).logs ∧
    (0 : ℕ) ≠ 1 := by decide

/-! ## Claim C10: empty-string cells extract as zero -/

/-- C10: `extractNumber` maps the empty string — and every whitespace-only
string — to the number 0, not to `none`; consequently an empty-string
cell reaches the cascade as a present zero quantity (`fetchNum` returns
`some 0`), not as an absent field. -/
theorem claim10_empty_string_zero :
    extractNumber (CellValue.str "") = some 0 ∧
    (∀ s : String, (∀ c ∈ s.toList, isJsWhitespace c = true) →
      extractNumber (CellValue.str s) = some 0) ∧
    (∀ (cfg : FieldCfg) (rec : Record), cfg FieldKey.innerQty = true →
      rec FieldKey.innerQty = CellValue.str "" →
      fetchNum cfg rec FieldKey.innerQty = some 0) := by
  refine ⟨by decide, ?_, ?_⟩
  · intro s hs
    have h1 : s.toList.dropWhile isJsWhitespace = [] :=
      List.dropWhile_eq_nil_iff.mpr hs
    show jsStringToNumber s = some 0
    unfold jsStringToNumber jsTrimList
    rw [h1]
    simp
  · intro cfg rec hcfg hrec
    unfold fetchNum
    rw [hcfg, if_pos rfl, hrec]
    decide

/-- Witness for C10 on the whitespace string " \t" and on a record whose
inner-quantity cell is the empty string. -/
theorem claim10_witness :
    extractNumber (CellValue.str " \t") = some 0 ∧
    fetchNum cfgAll recEmptyStrQty FieldKey.innerQty = some 0 :=
  ⟨claim10_empty_string_zero.2.1 " \t" (by decide),
   claim10_empty_string_zero.2.2 cfgAll recEmptyStrQty rfl rfl⟩


end SOL
